import Mathlib

/-!
Verification of the apk-info repository's core decoders against its
natural-language specification.

The development shallowly embeds the relevant Rust code:

* the decoded XML element tree and its queries
  (`crates/axml/src/axml.rs`: `get_attribute_value`, `get_main_activities`);
* `AXML::new` header handling (`crates/axml/src/axml.rs`);
* `ZipEntry::read` with its tamper-resolution protocol
  (`crates/zip/src/entry.rs`), with the external `flate2` inflater
  abstracted as an oracle function;
* `EndOfCentralDirectory::find_eocd` (`zip/src/structs/eocd.rs`);
* the APK Signing Block framing of `ZipEntry::get_signatures_other`
  (`crates/zip/src/entry.rs`), with the per-block signature parser
  abstracted;
* `ZipEntry::get_signature_v1` and `Apk::get_signatures`
  (`crates/zip/src/entry.rs`, `core/src/apk.rs`);
* `ARSC::get_resource_value` and `ResTablePackage::get_entry`
  (`crates/axml/src/arsc.rs`, `crates/axml/src/structs/resource_table.rs`),
  with value rendering (`ResourceValue::to_string`) abstracted because it
  formats IEEE floats.

Bytes are modelled as natural numbers; Rust's `usize`/`u64` arithmetic
is modelled on `Nat` (Rust `saturating_sub` is `Nat` subtraction).
Recursion that the Rust code performs on the call stack
(`get_resource_value`) is modelled with explicit fuel.
-/

/-! ## XML element tree

The decoded tree produced by `AXML::get_xml_tree`.  `minidom::Element`
carries a name, attributes and children; attribute lookup `Element::attr`
returns the value stored under a name.  We model attributes as an
association list searched front-to-back.
-/

inductive Element where
  | mk (name : String) (attrs : List (String × String)) (children : List Element)
deriving Repr

def Element.name : Element → String
  | .mk n _ _ => n

def Element.attrs : Element → List (String × String)
  | .mk _ a _ => a

def Element.children : Element → List Element
  | .mk _ _ c => c

/-- `minidom::Element::attr`: look the attribute value up by name. -/
def Element.attr (e : Element) (n : String) : Option String :=
  (e.attrs.find? (fun p => p.1 == n)).map (fun p => p.2)

mutual

/-- The element together with every element strictly below it, in
depth-first pre-order (the root itself comes first). -/
def Element.descendants : Element → List Element
  | .mk n a cs => .mk n a cs :: descendantsList cs

def descendantsList : List Element → List Element
  | [] => []
  | c :: rest => c.descendants ++ descendantsList rest

end

/-- `AXML::get_attribute_value` (crates/axml/src/axml.rs): if the root
matches the tag return its attribute, otherwise search the root's direct
children for the first element with that tag. -/
def getAttributeValue (root : Element) (tag nm : String) : Option String :=
  if root.name = tag then
    root.attr nm
  else
    (root.children.find? (fun x => x.name == tag)).bind (fun x => x.attr nm)

/-! ### `get_main_activities` (crates/axml/src/axml.rs) -/

/-- The guard of the `"action"` match arm in `get_main_activities`. -/
def isMainAction (c : Element) : Bool :=
  c.name == "action" && c.attr "name" == some "android.intent.action.MAIN"

/-- The guard of the `"category"` match arm in `get_main_activities`. -/
def isLauncherCategory (c : Element) : Bool :=
  c.name == "category" &&
    (c.attr "name" == some "android.intent.category.LAUNCHER" ||
      c.attr "name" == some "android.intent.category.INFO")

/-- The inner `for child in intent_filter.children()` loop of
`AXML::get_main_activities`: two flags are updated per child and the loop
returns `true` as soon as both are set. -/
def mainLauncherLoop : List Element → Bool → Bool → Bool
  | [], _, _ => false
  | c :: rest, hasMain, hasLauncher =>
    let hasMain' := hasMain || isMainAction c
    let hasLauncher' := hasLauncher || isLauncherCategory c
    if hasMain' && hasLauncher' then true else mainLauncherLoop rest hasMain' hasLauncher'

/-- The `any` over an activity's children in `get_main_activities`. -/
def hasMatchingIntentFilter (activity : Element) : Bool :=
  activity.children.any (fun f =>
    if f.name ≠ "intent-filter" then false
    else mainLauncherLoop f.children false false)

/-- `AXML::get_main_activities`: for each child of every `application`
child of the root, skip elements that are not `activity`/`activity-alias`
or that are disabled, and yield the `name` attribute of those with a
matching intent filter. -/
def getMainActivities (root : Element) : List String :=
  ((root.children.filter (fun c => c.name == "application")).flatMap
      (fun app => app.children)).filterMap
    (fun activity =>
      if (activity.name ≠ "activity" ∧ activity.name ≠ "activity-alias")
          ∨ activity.attr "enabled" = some "false" then
        none
      else if hasMatchingIntentFilter activity then
        activity.attr "name"
      else none)

/-- Worded from the specification sentence for claim C7: a child yields
its `name` attribute iff some child `intent-filter` contains both an
`action` named `android.intent.action.MAIN` and a `category` named
`android.intent.category.LAUNCHER` or `android.intent.category.INFO`. -/
def mainActivitiesClaimed (root : Element) : List String :=
  ((root.children.filter (fun c => c.name == "application")).flatMap
      (fun app => app.children)).filterMap
    (fun c =>
      if (c.name = "activity" ∨ c.name = "activity-alias")
          ∧ c.attr "enabled" ≠ some "false"
          ∧ c.children.any (fun f =>
              f.name == "intent-filter" &&
                f.children.any (fun x =>
                  x.name == "action" && x.attr "name" == some "android.intent.action.MAIN") &&
                f.children.any (fun y =>
                  y.name == "category" &&
                    (y.attr "name" == some "android.intent.category.LAUNCHER" ||
                      y.attr "name" == some "android.intent.category.INFO"))) then
        c.attr "name"
      else none)

/-! ## AXML open (crates/axml/src/axml.rs, `AXML::new`)

`AXML::new` reads the outer `ResChunkHeader` (little-endian `u16` type,
`u16` header_size, `u32` size), records `is_tampered` when the type is
not `0x0003`, fails when the input is shorter than 8 bytes or the header
size is not 8, and then hands the remaining bytes to the string pool /
resource map / tree parsers, which never look at the outer type.  Those
later stages are the `parseTail` parameter here; `none` stands for any
of their errors. -/

def le16 (input : List Nat) (off : Nat) : Nat :=
  input.getD off 0 + 256 * input.getD (off + 1) 0

def le32 (input : List Nat) (off : Nat) : Nat :=
  le16 input off + 65536 * le16 input (off + 2)

structure ResChunkHeader where
  type_ : Nat
  headerSize : Nat
  size : Nat
deriving DecidableEq, Repr

structure AXMLResult where
  isTampered : Bool
  header : ResChunkHeader
  root : Element
deriving Repr

inductive AXMLError where
  | tooSmallError
  | headerError
  | headerSizeError (sz : Nat)
  | tailError
deriving DecidableEq, Repr

/-- `AXML::new`: length check, outer chunk header parse, tamper flag on a
non-XML (≠ 0x0003) type, fatal error on header_size ≠ 8, then the rest of
the decode on the remaining bytes. -/
def axmlNew (parseTail : List Nat → Option Element) (input : List Nat) :
    Except AXMLError AXMLResult :=
  if input.length < 8 then .error .tooSmallError
  else
    let ty := le16 input 0
    let hs := le16 input 2
    let sz := le32 input 4
    let isTampered := ty ≠ 3
    if hs ≠ 8 then .error (.headerSizeError hs)
    else
      match parseTail (input.drop 8) with
      | some root => .ok ⟨isTampered, ⟨ty, hs, sz⟩, root⟩
      | none => .error .tailError

/-- The same byte sequence with the outer chunk type overwritten by the
canonical XML type 0x0003. -/
def withXmlType (input : List Nat) : List Nat :=
  3 :: 0 :: input.drop 2

/-! ## ZIP reader (crates/zip/src/entry.rs, `ZipEntry::read`)

The archive state keeps the decoded headers that `ZipEntry::new` builds:
the raw bytes, the per-filename `LocalFileHeader`s and the per-filename
central-directory entries.  `flate2::Decompress::decompress_vec` (with
`FlushDecompress::Finish` into a `Vec` of capacity `uncompressed_size`)
is abstracted as an `Inflate` oracle returning either a hard error
(`none`, Rust `Err(DecompressError)`) or a status, the produced bytes and
the observable `total_in`. -/

inductive ZipError where
  | invalidHeader
  | decompressionError
  | eof
  | fileNotFound
  | notFoundEOCD
  | parseError
deriving DecidableEq, Repr

inductive FileCompressionType where
  | stored
  | deflated
  | storedTampered
  | deflatedTampered
deriving DecidableEq, Repr

structure LocalFileHeader where
  compressionMethod : Nat
  compressedSize : Nat
  uncompressedSize : Nat
  fileNameLen : Nat
  extraFieldLen : Nat
deriving DecidableEq, Repr

/-- `LocalFileHeader::size`: 4 (magic) + 26 (fields) + name + extra. -/
def LocalFileHeader.size (h : LocalFileHeader) : Nat :=
  30 + h.fileNameLen + h.extraFieldLen

structure CentralDirectoryEntry where
  compressionMethod : Nat
  compressedSize : Nat
  uncompressedSize : Nat
  localHeaderOffset : Nat
deriving DecidableEq, Repr

/-- Association-list lookup, the model of `HashMap::get` / `BTreeMap::get`. -/
def alistFind {κ α : Type} [DecidableEq κ] (key : κ) : List (κ × α) → Option α
  | [] => none
  | (k, v) :: rest => if k = key then some v else alistFind key rest

structure ZipState where
  input : List Nat
  localHeaders : List (String × LocalFileHeader)
  cdEntries : List (String × CentralDirectoryEntry)
  /-- `eocd.central_dir_offset` (used by the signing-block reader). -/
  centralDirOffset : Nat

/-- Rust `slice.get(s..e)`: `some` of the subrange iff `s ≤ e ≤ len`. -/
def sliceGet (input : List Nat) (s e : Nat) : Option (List Nat) :=
  if s ≤ e ∧ e ≤ input.length then some ((input.drop s).take (e - s)) else none

inductive InflateStatus where
  | ok
  | bufError
  | streamEnd
deriving DecidableEq, Repr

structure InflateResult where
  status : InflateStatus
  output : List Nat
  totalIn : Nat
deriving DecidableEq, Repr

/-- Oracle for `Decompress::decompress_vec(data, vec_with_capacity(cap), Finish)`. -/
def Inflate : Type := List Nat → Nat → Option InflateResult

/-- The size-selection step of `ZipEntry::read`: prefer the Local File
Header sizes unless either is zero, in which case both central-directory
sizes are substituted.  Returns `(compressed_size, uncompressed_size)`. -/
def trustworthySizes (lfh : LocalFileHeader) (cd : CentralDirectoryEntry) : Nat × Nat :=
  if lfh.compressedSize = 0 ∨ lfh.uncompressedSize = 0 then
    (cd.compressedSize, cd.uncompressedSize)
  else
    (lfh.compressedSize, lfh.uncompressedSize)

/-- `ZipEntry::read` (crates/zip/src/entry.rs lines 76-160). -/
def zipRead (inflate : Inflate) (st : ZipState) (filename : String) :
    Except ZipError (List Nat × FileCompressionType) :=
  match alistFind filename st.localHeaders with
  | none => .error .fileNotFound
  | some lfh =>
  match alistFind filename st.cdEntries with
  | none => .error .fileNotFound
  | some cd =>
    let sizes := trustworthySizes lfh cd
    let compressedSize := sizes.1
    let uncompressedSize := sizes.2
    let off := cd.localHeaderOffset + lfh.size
    if lfh.compressionMethod = 0 then
      -- stored (no compression)
      match sliceGet st.input off (off + uncompressedSize) with
      | none => .error .eof
      | some bytes => .ok (bytes, .stored)
    else if lfh.compressionMethod = 8 then
      -- deflate default: the status and total_in are not inspected
      match sliceGet st.input off (off + compressedSize) with
      | none => .error .eof
      | some compressedData =>
        match inflate compressedData uncompressedSize with
        | none => .error .decompressionError
        | some r => .ok (r.output, .deflated)
    else if compressedSize = uncompressedSize then
      -- stored tampered
      match sliceGet st.input off (off + uncompressedSize) with
      | none => .error .eof
      | some bytes => .ok (bytes, .storedTampered)
    else
      -- deflate tampered, with fallback to stored on failure
      match sliceGet st.input off (off + compressedSize) with
      | none => .error .eof
      | some compressedData =>
        let fallback : Except ZipError (List Nat × FileCompressionType) :=
          match sliceGet st.input off (off + uncompressedSize) with
          | none => .error .eof
          | some bytes => .ok (bytes, .storedTampered)
        match inflate compressedData uncompressedSize with
        | none => fallback
        | some r =>
          if (r.status = .ok ∨ r.status = .streamEnd) ∧ r.totalIn = compressedData.length
          then .ok (r.output, .deflatedTampered)
          else fallback

/-! ## EOCD discovery (zip/src/structs/eocd.rs, `find_eocd`)

The scan walks backwards over the input in `chunk_size`-byte windows
(`ZipEntry::new` passes 4096) and returns the rightmost position of the
magic `PK\x05\x06` inside the first window that contains one.  The Rust
`while end > 0` loop decreases `end` by `chunk_size` each round; it is
modelled with fuel `input.length`, which is enough iterations whenever
`chunk_size > 0` (the only way the code calls it). -/

/-- `memmem::rfind(chunk, [0x50, 0x4B, 0x05, 0x06])`: one forward pass
remembering the last match position. -/
def rfindMagicAux : List Nat → Nat → Option Nat → Option Nat
  | a :: rest, i, best =>
    let best' :=
      match rest with
      | b :: c :: d :: _ => if a = 80 ∧ b = 75 ∧ c = 5 ∧ d = 6 then some i else best
      | _ => best
    rfindMagicAux rest (i + 1) best'
  | [], _, best => best

def rfindMagic (l : List Nat) : Option Nat :=
  rfindMagicAux l 0 none

def findEocdAux (input : List Nat) (chunkSize : Nat) : Nat → Nat → Option Nat
  | 0, _ => none
  | fuel + 1, e =>
    if e = 0 then none
    else
      let start := e - chunkSize
      match rfindMagic ((input.drop start).take (e - start)) with
      | some pos => some (start + pos)
      | none => findEocdAux input chunkSize fuel start

/-- `EndOfCentralDirectory::find_eocd`. -/
def findEocd (input : List Nat) (chunkSize : Nat) : Option Nat :=
  findEocdAux input chunkSize input.length input.length

/-- The EOCD magic `PK\x05\x06` starts at position `p` of `input`. -/
def magicAt (input : List Nat) (p : Nat) : Prop :=
  (input.drop p).take 4 = [80, 75, 5, 6]

instance (input : List Nat) (p : Nat) : Decidable (magicAt input p) := by
  unfold magicAt
  infer_instance

/-- A 4097-byte input whose only EOCD magic starts at offset 0 and hence
straddles the boundary between the two 4096-byte scan windows. -/
def eocdBoundaryInput : List Nat :=
  80 :: 75 :: 5 :: 6 :: List.replicate 4093 0

/-! ## APK Signing Block (crates/zip/src/entry.rs)

`get_signatures_other` reads the 24 trailer bytes immediately before the
central directory (u64 size-of-block then the 16-byte magic), bails out
with an empty list when the magic is absent, seeks back by
`size_of_block + 8`, re-reads the leading u64 size and requires it to
equal the trailing one.  The iteration over the ID/value pairs
(`parse_apk_signatures`, which needs an X.509 parser) is abstracted as
the `parseSigs` parameter; its result is filtered of `Unknown` entries
exactly as in the source. -/

structure CertificateInfo where
  serialNumber : String
  subject : String
  validFrom : String
  validUntil : String
  signatureType : String
  md5Fingerprint : String
  sha1Fingerprint : String
  sha256Fingerprint : String
deriving DecidableEq, Repr

inductive Signature where
  | v1 (certs : List CertificateInfo)
  | v2 (certs : List CertificateInfo)
  | v3 (certs : List CertificateInfo)
  | v31 (certs : List CertificateInfo)
  | v4
  | apkChannelBlock (s : String)
  | stampBlockV1 (cert : CertificateInfo)
  | stampBlockV2 (cert : CertificateInfo)
  | unknown
deriving DecidableEq, Repr

inductive CertificateError where
  | parseError
  | zipError (e : ZipError)
  | stackError
  | signerError
  | invalidFormat (start fin : Nat)
deriving DecidableEq, Repr

/-- ASCII bytes of `APK Sig Block 42`. -/
def apkSigMagic : List Nat :=
  [65, 80, 75, 32, 83, 105, 103, 32, 66, 108, 111, 99, 107, 32, 52, 50]

/-- `winnow::binary::le_u64`: little-endian value of the first 8 bytes. -/
def le64 (l : List Nat) : Nat :=
  (l.take 8).reverse.foldl (fun acc b => acc * 256 + b) 0

/-- `le_u64.parse_next`: consume 8 bytes or fail. -/
def parseLE64 (l : List Nat) : Option (Nat × List Nat) :=
  if 8 ≤ l.length then some (le64 l, l.drop 8) else none

/-- `take(n).parse_next`: consume `n` bytes or fail. -/
def parseTake (n : Nat) (l : List Nat) : Option (List Nat × List Nat) :=
  if n ≤ l.length then some (l.take n, l.drop n) else none

/-- `ZipEntry::get_signatures_other` (crates/zip/src/entry.rs lines
309-361), with the signature-pair iteration abstracted as `parseSigs`. -/
def getSignaturesOther (parseSigs : List Nat → Option (List Signature))
    (input : List Nat) (centralDirOffset : Nat) :
    Except CertificateError (List Signature) :=
  let off := centralDirOffset
  match sliceGet input (off - 24) off with
  | none => .ok []
  | some slice0 =>
    match parseLE64 slice0 with
    | none => .error .parseError
    | some (sizeOfBlock, rest1) =>
      match parseTake 16 rest1 with
      | none => .error .parseError
      | some (magic, _) =>
        if magic ≠ apkSigMagic then .ok []
        else
          match sliceGet input (off - (sizeOfBlock + 8)) (off - 24) with
          | none => .ok []
          | some inner =>
            match parseLE64 inner with
            | none => .error .parseError
            | some (sizeOfBlockStart, restInner) =>
              if sizeOfBlock ≠ sizeOfBlockStart then
                .error (.invalidFormat sizeOfBlockStart sizeOfBlock)
              else
                match parseSigs restInner with
                | none => .error .parseError
                | some sigs => .ok (sigs.filter (fun s => s ≠ Signature.unknown))

/-- The 16 bytes immediately before the central directory, where the
signing-block magic lives. -/
def trailerMagic (input : List Nat) (off : Nat) : List Nat :=
  (input.drop (off - 16)).take 16

/-! ## v1 signatures and the facade signature list
(crates/zip/src/entry.rs `get_signature_v1`, core/src/apk.rs
`Apk::get_signatures`) -/

/-- Rust `str::starts_with`, on the character lists of the strings. -/
def strStartsWith (s p : String) : Bool :=
  decide (s.data.take p.data.length = p.data)

/-- Rust `str::ends_with`, on the character lists of the strings. -/
def strEndsWith (s p : String) : Bool :=
  decide (s.data.drop (s.data.length - p.data.length) = p.data)

/-- The filename filter of `get_signature_v1`. -/
def isV1SignatureName (n : String) : Bool :=
  strStartsWith n "META-INF/" &&
    (strEndsWith n ".DSA" || strEndsWith n ".EC" || strEndsWith n ".RSA")

/-- `ZipEntry::get_signature_v1`: search the name list for a JAR
signature file; when none exists return `Ok(Signature::Unknown)`.  The
PKCS#7 path taken when a file is found is abstracted as `parseFound`. -/
def getSignatureV1 (parseFound : String → Except CertificateError Signature)
    (names : List String) : Except CertificateError Signature :=
  match names.find? isV1SignatureName with
  | none => .ok .unknown
  | some n => parseFound n

inductive APKError where
  | certificateError (e : CertificateError)
deriving DecidableEq, Repr

/-- `Apk::get_signatures` (core/src/apk.rs lines 517-531): push the v1
result when it is `Ok`, then extend with the v2+ results, propagating
their error. -/
def apkGetSignatures (v1res : Except CertificateError Signature)
    (othersRes : Except CertificateError (List Signature)) :
    Except APKError (List Signature) :=
  let sigs : List Signature :=
    match v1res with
    | .ok s => [s]
    | .error _ => []
  match othersRes with
  | .ok os => .ok (sigs ++ os)
  | .error e => .error (.certificateError e)

/-! ## ARSC resource table (crates/axml/src/arsc.rs,
crates/axml/src/structs/resource_table.rs)

A package maps each configuration to a map from type id to the entry
vector (`BTreeMap<ResTableConfig, HashMap<u8, Vec<ResTableEntry>>>`);
configurations compare by their raw byte image, abstracted here as a
natural number with `ResTableConfig::default()` as `0`.  Both maps are
modelled as association lists — the outer one ordered, as a `BTreeMap`
iteration is.  `ResourceValue::to_string` renders IEEE floats and is
abstracted as the total `render` parameter; `get_resource_value`
dispatches on the value's type before any rendering, so no claim here
depends on the rendered text. -/

inductive ResourceValueType where
  | null
  | reference
  | attribute
  | str
  | float
  | dimension
  | fraction
  | dec
  | hex
  | boolean
  | colorArgb8
  | colorRgb8
  | colorArgb4
  | colorRgb4
  | unknown (v : Nat)
deriving DecidableEq, Repr

structure ResourceValue where
  size : Nat
  res : Nat
  dataType : ResourceValueType
  data : Nat
deriving DecidableEq, Repr

structure ResTableMap where
  name : Nat
  value : ResourceValue
deriving DecidableEq, Repr

structure ResTableMapEntry where
  size : Nat
  flags : Nat
  index : Nat
  parent : Nat
  count : Nat
  values : List ResTableMap
deriving DecidableEq, Repr

structure ResTableEntryCompact where
  key : Nat
  flags : Nat
  data : Nat
deriving DecidableEq, Repr

structure ResTableEntryDefault where
  size : Nat
  flags : Nat
  index : Nat
  value : ResourceValue
deriving DecidableEq, Repr

inductive ResTableEntry where
  | noEntry
  | complex (e : ResTableMapEntry)
  | compact (e : ResTableEntryCompact)
  | default (e : ResTableEntryDefault)
deriving DecidableEq, Repr

/-- The raw byte image of a `ResTableConfig`, the lookup key; `0` is
`ResTableConfig::default()`. -/
def ResTableConfig : Type := Nat

instance : DecidableEq ResTableConfig := fun a b => Nat.decEq a b

instance (n : Nat) : OfNat ResTableConfig n := ⟨n⟩

def defaultConfig : ResTableConfig := (0 : Nat)

/-- The entry vectors of one configuration, keyed by type id. -/
def TypeMap : Type := List (Nat × List ResTableEntry)

structure ResTablePackage where
  id : Nat
  resources : List (ResTableConfig × TypeMap)

/-- The common step of both halves of `ResTablePackage::get_entry`: in
one configuration's type map, index the entry vector of `type_id` at
`entry_id` and keep the entry unless it is `NoEntry`. -/
def configFind (tm : TypeMap) (typeId entryId : Nat) : Option ResTableEntry :=
  match alistFind typeId tm with
  | none => none
  | some entries =>
    match entries.get? entryId with
    | none => none
    | some entry => if entry = ResTableEntry.noEntry then none else some entry

/-- The second half of `get_entry`: iterate over all configurations in
map order, skipping the one already tried. -/
def getEntryFallback (resources : List (ResTableConfig × TypeMap))
    (config : ResTableConfig) (typeId entryId : Nat) : Option ResTableEntry :=
  match resources with
  | [] => none
  | (c, tm) :: rest =>
    if c = config then getEntryFallback rest config typeId entryId
    else
      match configFind tm typeId entryId with
      | some entry => some entry
      | none => getEntryFallback rest config typeId entryId

/-- `ResTablePackage::get_entry` (resource_table.rs lines 864-952): try
the requested configuration first, then every other configuration. -/
def ResTablePackage.getEntry (pkg : ResTablePackage) (config : ResTableConfig)
    (typeId entryId : Nat) : Option ResTableEntry :=
  match (alistFind config pkg.resources).bind (fun tm => configFind tm typeId entryId) with
  | some entry => some entry
  | none => getEntryFallback pkg.resources config typeId entryId

structure ARSC where
  isTampered : Bool
  packages : List (Nat × ResTablePackage)

/-- `ARSC::split_resource_id`: `(id >> 24) as u8`, `((id >> 16) & 0xff)
as u8`, `(id & 0xffff) as u16`. -/
def splitResourceId (id : Nat) : Nat × Nat × Nat :=
  ((id >>> 24) % 256, (id >>> 16) % 256, id % 65536)

/-- Result of running `get_resource_value` with bounded fuel: `diverge`
means the fuel ran out, i.e. the Rust recursion is still running. -/
inductive FuelResult where
  | diverge
  | done (r : Option String)
deriving DecidableEq, Repr

/-- `ARSC::get_resource_value` (arsc.rs lines 91-121), fuel-indexed.  The
hardcoded query configuration is `ResTableConfig::default()`; the only
recursion guard in the source is the direct self-reference test
`e.value.data == id`. -/
def getResourceValueF (render : ResourceValue → String) (arsc : ARSC) :
    Nat → Nat → FuelResult
  | 0, _ => .diverge
  | fuel + 1, id =>
    let split := splitResourceId id
    match alistFind split.1 arsc.packages with
    | none => .done none
    | some pkg =>
      match pkg.getEntry defaultConfig split.2.1 split.2.2 with
      | none => .done none
      | some (.default e) =>
        match e.value.dataType with
        | .reference =>
          if e.value.data = id then .done none
          else getResourceValueF render arsc fuel e.value.data
        | _ => .done (some (render e.value))
      | some .noEntry => .done none
      | some _ => .done none

/-! ## Theorems -/

/-! ### Shared helper lemmas -/

lemma mainLauncherLoop_eq (cs : List Element) (m l : Bool) (h : (m && l) = false) :
    mainLauncherLoop cs m l
      = ((m || cs.any isMainAction) && (l || cs.any isLauncherCategory)) := by
  induction cs generalizing m l with
  | nil =>
    simp only [mainLauncherLoop, List.any_nil, Bool.or_false]
    exact h.symm
  | cons c rest ih =>
    simp only [mainLauncherLoop, List.any_cons]
    by_cases hml : ((m || isMainAction c) && (l || isLauncherCategory c)) = true
    · rw [if_pos hml]
      have h1 : (m || isMainAction c) = true := (Bool.and_eq_true _ _).mp hml |>.1
      have h2 : (l || isLauncherCategory c) = true := (Bool.and_eq_true _ _).mp hml |>.2
      rw [← Bool.or_assoc, ← Bool.or_assoc, h1, h2]
      rfl
    · have hml' : ((m || isMainAction c) && (l || isLauncherCategory c)) = false :=
        Bool.eq_false_iff.mpr hml
      rw [if_neg hml, ih _ _ hml', ← Bool.or_assoc, ← Bool.or_assoc]

lemma hasMatchingIntentFilter_eq (c : Element) :
    hasMatchingIntentFilter c =
      c.children.any (fun f =>
        f.name == "intent-filter" &&
          f.children.any (fun x =>
            x.name == "action" && x.attr "name" == some "android.intent.action.MAIN") &&
          f.children.any (fun y =>
            y.name == "category" &&
              (y.attr "name" == some "android.intent.category.LAUNCHER" ||
                y.attr "name" == some "android.intent.category.INFO"))) := by
  unfold hasMatchingIntentFilter
  congr 1
  funext f
  by_cases hf : f.name = "intent-filter"
  · rw [mainLauncherLoop_eq f.children false false rfl]
    unfold isMainAction isLauncherCategory
    simp [hf]
  · simp [hf]

/-- C7: `main_activities()` yields, for each child of the `application`
element whose name is `activity` or `activity-alias` and whose `enabled`
attribute is not `"false"`, the element's `name` attribute if and only if
some child `intent-filter` element contains both an `action` with name
`android.intent.action.MAIN` and a `category` with name
`android.intent.category.LAUNCHER` or `android.intent.category.INFO`. -/
theorem mainActivities_spec_c7 (root : Element) :
    getMainActivities root = mainActivitiesClaimed root := by
  unfold getMainActivities mainActivitiesClaimed
  congr 1
  funext c
  rw [hasMatchingIntentFilter_eq]
  split_ifs <;> tauto

/-! ### C8: `get_attribute_value` and descendants -/

/-- A manifest whose only `activity` element sits at depth 2, below
`application`. -/
def c8Tree : Element :=
  .mk "manifest" [] [.mk "application" [] [.mk "activity" [("name", ".Main")] []]]

/-- C8 (counterexample): `get_attribute_value` does NOT search
descendants at any depth — on a tree whose first (and only) descendant
named `activity` is a grandchild of the root carrying
`name = ".Main"`, the query returns `none`. -/
theorem getAttributeValue_descendant_miss_c8_cex :
    getAttributeValue c8Tree "activity" "name" = none
    ∧ ((c8Tree.descendants.find? (fun d => d.name == "activity")).bind
        (fun d => d.attr "name")) = some ".Main" := by
  constructor
  · rfl
  · rfl

/-- C8 (amended): `attr(tag, name)` checks the root itself, and
otherwise only the root's DIRECT children: it returns the attribute of
the first direct child whose name equals the tag, and `none` when no
direct child matches, regardless of deeper descendants. -/
theorem getAttributeValue_direct_children_c8 (root : Element) (tag nm : String) :
    (root.name = tag → getAttributeValue root tag nm = root.attr nm)
    ∧ (root.name ≠ tag →
        ∀ c, root.children.find? (fun x => x.name == tag) = some c →
          getAttributeValue root tag nm = c.attr nm)
    ∧ (root.name ≠ tag →
        root.children.find? (fun x => x.name == tag) = none →
          getAttributeValue root tag nm = none) := by
  refine ⟨fun h => by simp [getAttributeValue, h],
    fun h c hc => by simp [getAttributeValue, h, hc],
    fun h hn => by simp [getAttributeValue, h, hn]⟩

def w8Child : Element := .mk "uses-sdk" [("minSdkVersion", "21")] []

def w8Root : Element := .mk "manifest" [("package", "com.example.app")] [w8Child]

theorem getAttributeValue_direct_children_c8_witness :
    getAttributeValue w8Root "uses-sdk" "minSdkVersion" = some "21" := by
  have h := (getAttributeValue_direct_children_c8 w8Root "uses-sdk" "minSdkVersion").2.1
    (by decide) w8Child (by rfl)
  rw [h]
  rfl

/-! ### C9: AXML header handling -/

lemma getD_drop (l : List Nat) (i j : Nat) :
    (l.drop i).getD j 0 = l.getD (i + j) 0 := by
  simp [List.getD_eq_getElem?_getD, List.getElem?_drop]

lemma withXmlType_getD (input : List Nat) (k : Nat) (hk : 2 ≤ k) :
    (withXmlType input).getD k 0 = input.getD k 0 := by
  obtain ⟨m, rfl⟩ : ∃ m, k = m + 2 := ⟨k - 2, by omega⟩
  show (3 :: 0 :: input.drop 2).getD (m + 2) 0 = input.getD (m + 2) 0
  rw [show m + 2 = (m + 1) + 1 by omega]
  rw [List.getD_cons_succ, List.getD_cons_succ, getD_drop]
  ring_nf

lemma withXmlType_le16 (input : List Nat) (k : Nat) (hk : 2 ≤ k) :
    le16 (withXmlType input) k = le16 input k := by
  unfold le16
  rw [withXmlType_getD input k hk, withXmlType_getD input (k + 1) (by omega)]

lemma withXmlType_le32 (input : List Nat) :
    le32 (withXmlType input) 4 = le32 input 4 := by
  unfold le32
  rw [withXmlType_le16 input 4 (by omega), withXmlType_le16 input 6 (by omega)]

lemma withXmlType_length (input : List Nat) (h : 2 ≤ input.length) :
    (withXmlType input).length = input.length := by
  simp [withXmlType]
  omega

lemma withXmlType_drop8 (input : List Nat) :
    (withXmlType input).drop 8 = input.drop 8 := by
  show ((3 :: 0 :: input.drop 2).drop 8) = input.drop 8
  rw [show (3 :: 0 :: input.drop 2).drop 8 = (input.drop 2).drop 6 from rfl,
    List.drop_drop]

/-- C9: AXML open behaviour at the header: an input shorter than 8 bytes
fails with the too-small error; an outer chunk whose header_size is not 8
is a fatal header error; an outer chunk whose type is not 0x0003 but
whose header_size is 8 opens successfully with `is_tampered = true`, and
decoding proceeds on the same remaining bytes, so the resulting tree —
and hence every attribute query — is identical to the untampered
(type = 0x0003) case. -/
theorem axmlNew_header_c9 (parseTail : List Nat → Option Element) (input : List Nat) :
    (input.length < 8 → axmlNew parseTail input = .error .tooSmallError)
    ∧ (8 ≤ input.length → le16 input 2 ≠ 8 →
        axmlNew parseTail input = .error (.headerSizeError (le16 input 2)))
    ∧ (8 ≤ input.length → le16 input 2 = 8 → le16 input 0 ≠ 3 →
        ∀ root, parseTail (input.drop 8) = some root →
          axmlNew parseTail input = .ok ⟨true, ⟨le16 input 0, 8, le32 input 4⟩, root⟩
          ∧ axmlNew parseTail (withXmlType input)
              = .ok ⟨false, ⟨3, 8, le32 input 4⟩, root⟩) := by
  refine ⟨fun h => by simp [axmlNew, h], fun h8 hhs => ?_, fun h8 hhs hty root hroot => ⟨?_, ?_⟩⟩
  · simp [axmlNew, show ¬(input.length < 8) by omega, hhs]
  · simp [axmlNew, show ¬(input.length < 8) by omega, hhs, hroot, hty]
  · have hlen : (withXmlType input).length = input.length :=
      withXmlType_length input (by omega)
    have h0 : le16 (withXmlType input) 0 = 3 := by
      show le16 (3 :: 0 :: input.drop 2) 0 = 3
      simp [le16]
    simp [axmlNew, hlen, show ¬(input.length < 8) by omega, h0,
      withXmlType_le16 input 2 (by omega), hhs, withXmlType_le32, withXmlType_drop8, hroot]

def w9Tail : List Nat → Option Element := fun _ => some w8Root

def w9Input : List Nat := [0, 0, 8, 0, 64, 0, 0, 0, 1, 2, 3]

theorem axmlNew_header_c9_witness :
    axmlNew w9Tail w9Input = .ok ⟨true, ⟨0, 8, 64⟩, w8Root⟩
    ∧ axmlNew w9Tail (withXmlType w9Input) = .ok ⟨false, ⟨3, 8, 64⟩, w8Root⟩ := by
  have h := (axmlNew_header_c9 w9Tail w9Input).2.2 (by decide) (by decide) (by decide)
    w8Root (by rfl)
  exact ⟨h.1, h.2⟩

/-! ### C3: EOCD discovery and the chunk boundary -/

lemma rfindMagicAux_step (a b c d : Nat) (t : List Nat) (i : Nat) (best : Option Nat) :
    rfindMagicAux (a :: b :: c :: d :: t) i best
      = rfindMagicAux (b :: c :: d :: t) (i + 1)
          (if a = 80 ∧ b = 75 ∧ c = 5 ∧ d = 6 then some i else best) := rfl

lemma rfindMagicAux_cons_ne (a : Nat) (rest : List Nat) (i : Nat) (best : Option Nat)
    (h : a ≠ 80) :
    rfindMagicAux (a :: rest) i best = rfindMagicAux rest (i + 1) best := by
  match rest with
  | [] => rfl
  | [b] => rfl
  | [b, c] => rfl
  | b :: c :: d :: t => rw [rfindMagicAux_step, if_neg (fun hh => h hh.1)]

lemma rfindMagicAux_replicate_zero (n : Nat) :
    ∀ i best, rfindMagicAux (List.replicate n 0) i best = best := by
  induction n with
  | zero => intro i best; rfl
  | succ k ih =>
    intro i best
    rw [List.replicate_succ, rfindMagicAux_cons_ne 0 _ _ _ (by omega), ih]

lemma rfindMagic_tail_none :
    rfindMagic (75 :: 5 :: 6 :: List.replicate 4093 0) = none := by
  unfold rfindMagic
  rw [rfindMagicAux_cons_ne 75 _ _ _ (by omega),
    rfindMagicAux_cons_ne 5 _ _ _ (by omega),
    rfindMagicAux_cons_ne 6 _ _ _ (by omega),
    rfindMagicAux_replicate_zero]

lemma rfindMagic_eocdBoundaryInput :
    rfindMagic eocdBoundaryInput = some 0 := by
  unfold rfindMagic eocdBoundaryInput
  rw [rfindMagicAux_step, if_pos (by norm_num),
    rfindMagicAux_cons_ne 75 _ _ _ (by omega),
    rfindMagicAux_cons_ne 5 _ _ _ (by omega),
    rfindMagicAux_cons_ne 6 _ _ _ (by omega),
    rfindMagicAux_replicate_zero]

lemma eocdBoundaryInput_length : eocdBoundaryInput.length = 4097 := by
  unfold eocdBoundaryInput
  rw [List.length_cons, List.length_cons, List.length_cons, List.length_cons,
    List.length_replicate]

lemma findEocdAux_step (input : List Nat) (cs fuel e : Nat) (he : e ≠ 0) :
    findEocdAux input cs (fuel + 1) e
      = match rfindMagic ((input.drop (e - cs)).take (e - (e - cs))) with
        | some pos => some ((e - cs) + pos)
        | none => findEocdAux input cs fuel (e - cs) := by
  conv_lhs => rw [findEocdAux]
  rw [if_neg he]

/-- C3 (code bug): the EOCD signature of `eocdBoundaryInput` starts at
offset 0, well inside the final 64 KiB + 22 bytes, and a plain rightmost
search over the whole input finds it there; but the 4096-byte backwards
chunked scan used by `ZipEntry::new` splits the four magic bytes across
its two windows and reports that no EOCD exists. -/
theorem findEocd_boundary_miss_c3 :
    findEocd eocdBoundaryInput 4096 = none
    ∧ magicAt eocdBoundaryInput 0
    ∧ eocdBoundaryInput.length = 4097
    ∧ eocdBoundaryInput.length ≤ 0 + 65558
    ∧ rfindMagic eocdBoundaryInput = some 0 := by
  refine ⟨?_, by decide, eocdBoundaryInput_length,
    by rw [eocdBoundaryInput_length]; omega, rfindMagic_eocdBoundaryInput⟩
  unfold findEocd
  rw [eocdBoundaryInput_length]
  rw [show (4097 : Nat) = 4096 + 1 from rfl]
  rw [findEocdAux_step _ _ _ _ (by omega)]
  have hsub : (4096 + 1 - 4096 : Nat) = 1 := by omega
  rw [hsub]
  have hdrop : eocdBoundaryInput.drop 1 = 75 :: 5 :: 6 :: List.replicate 4093 0 := rfl
  have htake : (75 :: 5 :: 6 :: List.replicate 4093 0).take (4096 + 1 - 1)
      = 75 :: 5 :: 6 :: List.replicate 4093 0 := by
    apply List.take_of_length_le
    rw [List.length_cons, List.length_cons, List.length_cons, List.length_replicate]
  rw [hdrop, htake, rfindMagic_tail_none]
  rw [show (4096 : Nat) = 4095 + 1 from rfl]
  rw [findEocdAux_step _ _ _ _ (by omega)]
  have hsub1 : (1 - 4096 : Nat) = 0 := by omega
  rw [hsub1]
  have htake1 : (eocdBoundaryInput.drop 0).take (1 - 0) = [80] := rfl
  rw [htake1]
  rfl

/-! ### C1/C4: `ZipEntry::read` -/

lemma sliceGet_length {input : List Nat} {s e : Nat} {bytes : List Nat}
    (h : sliceGet input s e = some bytes) : bytes.length = e - s := by
  unfold sliceGet at h
  split at h
  · rename_i hc
    cases h
    rw [List.length_take, List.length_drop]
    omega
  · exact Option.noConfusion h

/-- C1: `read(name)` prefers the Local File Header sizes unless either is
zero (then both central-directory sizes are substituted) and dispatches:
method 0 returns exactly `uncompressed_size` bytes verbatim marked
Stored; a method other than 0 and 8 with equal sizes returns the stored
bytes marked StoredTampered; a method other than 0 and 8 with differing
sizes attempts deflate, returns DeflatedTampered when deflate succeeds
consuming the full compressed region, and otherwise falls back to the
stored bytes marked StoredTampered. -/
theorem zipRead_dispatch_c1 (inflate : Inflate) (st : ZipState) (f : String)
    (lfh : LocalFileHeader) (cd : CentralDirectoryEntry)
    (hl : alistFind f st.localHeaders = some lfh)
    (hc : alistFind f st.cdEntries = some cd) :
    ((lfh.compressedSize = 0 ∨ lfh.uncompressedSize = 0) →
        trustworthySizes lfh cd = (cd.compressedSize, cd.uncompressedSize))
    ∧ (¬(lfh.compressedSize = 0 ∨ lfh.uncompressedSize = 0) →
        trustworthySizes lfh cd = (lfh.compressedSize, lfh.uncompressedSize))
    ∧ (lfh.compressionMethod = 0 →
        ∀ bytes,
          sliceGet st.input (cd.localHeaderOffset + lfh.size)
              (cd.localHeaderOffset + lfh.size + (trustworthySizes lfh cd).2) = some bytes →
            zipRead inflate st f = .ok (bytes, .stored)
            ∧ bytes.length = (trustworthySizes lfh cd).2)
    ∧ (lfh.compressionMethod ≠ 0 → lfh.compressionMethod ≠ 8 →
        (trustworthySizes lfh cd).1 = (trustworthySizes lfh cd).2 →
        ∀ bytes,
          sliceGet st.input (cd.localHeaderOffset + lfh.size)
              (cd.localHeaderOffset + lfh.size + (trustworthySizes lfh cd).2) = some bytes →
            zipRead inflate st f = .ok (bytes, .storedTampered)
            ∧ bytes.length = (trustworthySizes lfh cd).2)
    ∧ (lfh.compressionMethod ≠ 0 → lfh.compressionMethod ≠ 8 →
        (trustworthySizes lfh cd).1 ≠ (trustworthySizes lfh cd).2 →
        ∀ data,
          sliceGet st.input (cd.localHeaderOffset + lfh.size)
              (cd.localHeaderOffset + lfh.size + (trustworthySizes lfh cd).1) = some data →
          (∀ r, inflate data (trustworthySizes lfh cd).2 = some r →
              (((r.status = .ok ∨ r.status = .streamEnd) ∧ r.totalIn = data.length) →
                  zipRead inflate st f = .ok (r.output, .deflatedTampered))
              ∧ (¬((r.status = .ok ∨ r.status = .streamEnd) ∧ r.totalIn = data.length) →
                  ∀ bytes,
                    sliceGet st.input (cd.localHeaderOffset + lfh.size)
                        (cd.localHeaderOffset + lfh.size + (trustworthySizes lfh cd).2)
                      = some bytes →
                    zipRead inflate st f = .ok (bytes, .storedTampered)))
          ∧ (inflate data (trustworthySizes lfh cd).2 = none →
              ∀ bytes,
                sliceGet st.input (cd.localHeaderOffset + lfh.size)
                    (cd.localHeaderOffset + lfh.size + (trustworthySizes lfh cd).2)
                  = some bytes →
                zipRead inflate st f = .ok (bytes, .storedTampered))) := by
  refine ⟨fun h => by simp [trustworthySizes, h],
    fun h => by simp [trustworthySizes, h], ?_, ?_, ?_⟩
  · intro h0 bytes hb
    refine ⟨by simp [zipRead, hl, hc, h0, hb], ?_⟩
    have := sliceGet_length hb
    omega
  · intro hm0 hm8 heq bytes hb
    refine ⟨?_, ?_⟩
    · simp only [zipRead, hl, hc]
      rw [if_neg hm0, if_neg hm8, if_pos heq]
      simp [hb]
    · have := sliceGet_length hb
      omega
  · intro hm0 hm8 hne data hdata
    refine ⟨fun r hr => ⟨fun hvalid => ?_, fun hinvalid bytes hb => ?_⟩,
      fun hnone bytes hb => ?_⟩
    · simp only [zipRead, hl, hc]
      rw [if_neg hm0, if_neg hm8, if_neg hne]
      simp [hdata, hr, hvalid]
    · simp only [zipRead, hl, hc]
      rw [if_neg hm0, if_neg hm8, if_neg hne]
      simp only [hdata, hr]
      rw [if_neg hinvalid]
      simp [hb]
    · simp only [zipRead, hl, hc]
      rw [if_neg hm0, if_neg hm8, if_neg hne]
      simp [hdata, hnone, hb]

def w1Inflate : Inflate := fun _ _ => none

def w1Lfh : LocalFileHeader := ⟨0, 5, 5, 0, 0⟩

def w1Cd : CentralDirectoryEntry := ⟨0, 5, 5, 0⟩

def w1St : ZipState := ⟨List.replicate 40 9, [("f", w1Lfh)], [("f", w1Cd)], 0⟩

theorem zipRead_dispatch_c1_witness :
    zipRead w1Inflate w1St "f" = .ok (List.replicate 5 9, .stored)
    ∧ (List.replicate 5 9).length = (trustworthySizes w1Lfh w1Cd).2 :=
  (zipRead_dispatch_c1 w1Inflate w1St "f" w1Lfh w1Cd (by decide) (by decide)).2.2.1
    (by decide) (List.replicate 5 9) (by decide)

/-- C4 (amended): for an entry whose compression method is 8, `read`
runs deflate over `compressed_size` bytes and returns its output marked
Deflated whenever `decompress_vec` succeeds — without inspecting the
status or `total_in` — while a raw deflate failure surfaces as the
decompression error with no stored fallback. -/
theorem zipRead_deflate_path_c4 (inflate : Inflate) (st : ZipState) (f : String)
    (lfh : LocalFileHeader) (cd : CentralDirectoryEntry)
    (hl : alistFind f st.localHeaders = some lfh)
    (hc : alistFind f st.cdEntries = some cd)
    (h8 : lfh.compressionMethod = 8) :
    ∀ data,
      sliceGet st.input (cd.localHeaderOffset + lfh.size)
          (cd.localHeaderOffset + lfh.size + (trustworthySizes lfh cd).1) = some data →
      (inflate data (trustworthySizes lfh cd).2 = none →
          zipRead inflate st f = .error .decompressionError)
      ∧ (∀ r, inflate data (trustworthySizes lfh cd).2 = some r →
          zipRead inflate st f = .ok (r.output, .deflated)) := by
  intro data hdata
  have hm0 : lfh.compressionMethod ≠ 0 := by omega
  constructor
  · intro hnone
    simp only [zipRead, hl, hc]
    rw [if_neg hm0, if_pos h8]
    simp [hdata, hnone]
  · intro r hr
    simp only [zipRead, hl, hc]
    rw [if_neg hm0, if_pos h8]
    simp [hdata, hr]

def w4Inflate : Inflate := fun _ _ => some ⟨.streamEnd, List.replicate 200 5, 100⟩

def w4Lfh : LocalFileHeader := ⟨8, 0, 0, 0, 0⟩

def w4Cd : CentralDirectoryEntry := ⟨8, 100, 200, 0⟩

def w4St : ZipState := ⟨List.replicate 130 1, [("payload.bin", w4Lfh)], [("payload.bin", w4Cd)], 0⟩

set_option maxRecDepth 40000 in
theorem zipRead_deflate_path_c4_witness :
    zipRead w4Inflate w4St "payload.bin" = .ok (List.replicate 200 5, .deflated)
    ∧ (List.replicate 200 5).length = 200 := by
  have h := (zipRead_deflate_path_c4 w4Inflate w4St "payload.bin" w4Lfh w4Cd
      (by decide) (by decide) (by decide) (List.replicate 100 1) (by decide)).2
      ⟨.streamEnd, List.replicate 200 5, 100⟩ (by decide)
  exact ⟨h, by simp⟩

instance {ε α : Type} [DecidableEq ε] [DecidableEq α] : DecidableEq (Except ε α) := fun a b =>
  match a, b with
  | .ok x, .ok y =>
    if h : x = y then .isTrue (congrArg _ h) else .isFalse (fun hh => h (Except.ok.inj hh))
  | .error x, .error y =>
    if h : x = y then .isTrue (congrArg _ h) else .isFalse (fun hh => h (Except.error.inj hh))
  | .ok _, .error _ => .isFalse (fun hh => Except.noConfusion hh)
  | .error _, .ok _ => .isFalse (fun hh => Except.noConfusion hh)

def c4Inflate : Inflate := fun _ _ => some ⟨.streamEnd, [1, 2, 3], 0⟩

def c4Lfh : LocalFileHeader := ⟨8, 2, 3, 0, 0⟩

def c4Cd : CentralDirectoryEntry := ⟨8, 2, 3, 0⟩

def c4St : ZipState := ⟨List.replicate 40 2, [("f", c4Lfh)], [("f", c4Cd)], 0⟩

/-- C4 (counterexample): in the method-8 path `read` does NOT demand
that deflate consume the full compressed region: with an inflater that
reports `total_in = 0` over the 2-byte compressed region, `read` still
returns the output marked Deflated. -/
theorem zipRead_deflate_no_consumption_c4_cex :
    zipRead c4Inflate c4St "f" = .ok ([1, 2, 3], .deflated)
    ∧ c4Inflate ((c4St.input.drop 30).take 2) 3 = some ⟨.streamEnd, [1, 2, 3], 0⟩
    ∧ ((c4St.input.drop 30).take 2).length = 2
    ∧ (0 : Nat) ≠ 2 := by
  set_option maxRecDepth 40000 in decide

/-! ### C5: signing-block framing -/

/-- C5: when reading the APK Signing Block, an absent magic yields an
empty signature list rather than an error; with the magic present, a
leading size-of-block different from the trailing one is the fatal
`InvalidFormat` error, and the block's ID/value pairs are only ever
parsed — so a non-empty signature list is only ever produced — when the
leading and trailing sizes agree. -/
theorem signingBlock_framing_c5 (parseSigs : List Nat → Option (List Signature))
    (input : List Nat) (off : Nat) (slice0 rest1 magic rest2 : List Nat) (sz : Nat)
    (hs0 : sliceGet input (off - 24) off = some slice0)
    (h8 : parseLE64 slice0 = some (sz, rest1))
    (h16 : parseTake 16 rest1 = some (magic, rest2)) :
    (magic ≠ apkSigMagic → getSignaturesOther parseSigs input off = .ok [])
    ∧ (magic = apkSigMagic →
        (sliceGet input (off - (sz + 8)) (off - 24) = none →
            getSignaturesOther parseSigs input off = .ok [])
        ∧ (∀ inner szStart restInner,
            sliceGet input (off - (sz + 8)) (off - 24) = some inner →
            parseLE64 inner = some (szStart, restInner) →
            (sz ≠ szStart →
                getSignaturesOther parseSigs input off
                  = .error (.invalidFormat szStart sz))
            ∧ (sz = szStart →
                ∀ sigs, parseSigs restInner = some sigs →
                  getSignaturesOther parseSigs input off
                    = .ok (sigs.filter (fun s => s ≠ Signature.unknown)))))
    ∧ (∀ sigs, getSignaturesOther parseSigs input off = .ok sigs → sigs ≠ [] →
        magic = apkSigMagic
        ∧ ∃ inner szStart restInner,
            sliceGet input (off - (sz + 8)) (off - 24) = some inner
            ∧ parseLE64 inner = some (szStart, restInner)
            ∧ sz = szStart) := by
  unfold getSignaturesOther
  simp only [hs0, h8, h16]
  refine ⟨fun hm => by rw [if_pos hm], fun hm => ?_, ?_⟩
  · rw [if_neg (fun hh => hh hm)]
    refine ⟨fun hnone => by rw [hnone], fun inner szStart restInner hinner h8i => ?_⟩
    rw [hinner]
    simp only [h8i]
    refine ⟨fun hne => by rw [if_pos hne], fun heq sigs hsigs => ?_⟩
    rw [if_neg (fun hh => hh heq), hsigs]
  · intro sigs hres hne
    split at hres
    · cases hres
      exact absurd rfl hne
    · rename_i hmagic
      split at hres
      · cases hres
        exact absurd rfl hne
      · rename_i inner heqInner
        split at hres
        · exact Except.noConfusion hres
        · rename_i szStart restInner heq8
          split at hres
          · exact Except.noConfusion hres
          · rename_i hsz
            split at hres
            · exact Except.noConfusion hres
            · exact ⟨not_not.mp hmagic, inner, szStart, restInner, heqInner, heq8,
                not_not.mp hsz⟩

def w5Parse : List Nat → Option (List Signature) := fun _ => some [Signature.v2 []]

def w5Input : List Nat :=
  [32, 0, 0, 0, 0, 0, 0, 0] ++ List.replicate 8 0
    ++ [32, 0, 0, 0, 0, 0, 0, 0] ++ apkSigMagic

theorem signingBlock_framing_c5_witness :
    getSignaturesOther w5Parse w5Input 40 = .ok [Signature.v2 []] := by
  have h := (((signingBlock_framing_c5 w5Parse w5Input 40
      ([32, 0, 0, 0, 0, 0, 0, 0] ++ apkSigMagic) apkSigMagic apkSigMagic []
      32 (by decide) (by decide) (by decide)).2.1 rfl).2
      ([32, 0, 0, 0, 0, 0, 0, 0] ++ List.replicate 8 0) 32 (List.replicate 8 0)
      (by decide) (by decide)).2 rfl [Signature.v2 []] (by rfl)
  rw [h]
  rfl

/-! ### C10: v1-absent signatures -/

/-- C10: when no archive entry is named `META-INF/*.RSA`,
`META-INF/*.DSA` or `META-INF/*.EC`, `get_signature_v1` returns `Ok`
with the `Unknown` variant rather than an error, and `Apk::get_signatures`
then places this `Unknown` element at the head of its returned list. -/
theorem signatures_unknown_v1_c10 (parseFound : String → Except CertificateError Signature)
    (names : List String) (othersRes : Except CertificateError (List Signature))
    (h : ∀ n ∈ names, isV1SignatureName n = false) :
    getSignatureV1 parseFound names = .ok .unknown
    ∧ (∀ os, othersRes = .ok os →
        apkGetSignatures (getSignatureV1 parseFound names) othersRes
          = .ok (.unknown :: os)) := by
  have hf : names.find? isV1SignatureName = none := by
    rw [List.find?_eq_none]
    intro x hx
    simp [h x hx]
  constructor
  · simp [getSignatureV1, hf]
  · intro os hos
    simp [apkGetSignatures, getSignatureV1, hf, hos]

def w10Parse : String → Except CertificateError Signature := fun _ => .error .parseError

def w10Names : List String := ["AndroidManifest.xml", "classes.dex", "META-INF/MANIFEST.MF"]

theorem signatures_unknown_v1_c10_witness :
    getSignatureV1 w10Parse w10Names = .ok .unknown
    ∧ apkGetSignatures (getSignatureV1 w10Parse w10Names) (.ok [])
        = .ok [Signature.unknown] := by
  have h := signatures_unknown_v1_c10 w10Parse w10Names (.ok []) (by decide)
  exact ⟨h.1, h.2 [] rfl⟩

/-! ### C2/C6: ARSC reference resolution and config fallback -/

def emptyRender : ResourceValue → String := fun _ => ""

/-- A `ResValue` of type Reference pointing at `target`. -/
def refValue (target : Nat) : ResourceValue := ⟨8, 0, .reference, target⟩

def cycIdA : Nat := 0x7f010000

def cycIdB : Nat := 0x7f010001

/-- A package whose two entries of type 1 reference each other: entry 0
points at `0x7f010001` and entry 1 points back at `0x7f010000`. -/
def cycPkg : ResTablePackage :=
  ⟨0x7f, [(defaultConfig, [(1, [ResTableEntry.default ⟨8, 0, 0, refValue cycIdB⟩,
    ResTableEntry.default ⟨8, 0, 1, refValue cycIdA⟩])])]⟩

def cycArsc : ARSC := ⟨false, [(0x7f, cycPkg)]⟩

/-- `get_resource_value(0x7f010000)` on the two-cycle table never
finishes, whatever amount of fuel (call-stack depth) it is given. -/
def cycGetResourceDiverges : Prop :=
  ∀ fuel, getResourceValueF emptyRender cycArsc fuel cycIdA = .diverge

lemma cycStepA (fuel : Nat) :
    getResourceValueF emptyRender cycArsc (fuel + 1) cycIdA
      = getResourceValueF emptyRender cycArsc fuel cycIdB := rfl

lemma cycStepB (fuel : Nat) :
    getResourceValueF emptyRender cycArsc (fuel + 1) cycIdB
      = getResourceValueF emptyRender cycArsc fuel cycIdA := rfl

/-- C2 (counterexample): the only recursion guard in
`get_resource_value` is the direct self-reference test `data == id`; on a
reference cycle of length 2 the resolution recurses unboundedly — there
is no visited set. -/
theorem arsc_two_cycle_diverges_c2 : cycGetResourceDiverges := by
  have key : ∀ fuel, getResourceValueF emptyRender cycArsc fuel cycIdA = .diverge
      ∧ getResourceValueF emptyRender cycArsc fuel cycIdB = .diverge := by
    intro fuel
    induction fuel with
    | zero => exact ⟨rfl, rfl⟩
    | succ n ih => exact ⟨by rw [cycStepA]; exact ih.2, by rw [cycStepB]; exact ih.1⟩
  intro fuel
  exact (key fuel).1

/-- C2 (amended): the direct self-cycle guard does terminate: whenever
the entry found for `id` is a Default entry whose value is a Reference
with `data = id`, `get_resource_value` returns `None` immediately, with
any remaining call depth. -/
theorem arsc_self_cycle_guard_c2 (render : ResourceValue → String) (arsc : ARSC)
    (fuel id : Nat) (pkg : ResTablePackage) (d : ResTableEntryDefault)
    (hp : alistFind (splitResourceId id).1 arsc.packages = some pkg)
    (he : pkg.getEntry defaultConfig (splitResourceId id).2.1 (splitResourceId id).2.2
        = some (.default d))
    (ht : d.value.dataType = .reference)
    (hd : d.value.data = id) :
    getResourceValueF render arsc (fuel + 1) id = .done none := by
  simp only [getResourceValueF, hp, he, ht]
  simp [hd]

def w2Pkg : ResTablePackage :=
  ⟨0x7f, [(defaultConfig, [(1, [ResTableEntry.default ⟨8, 0, 0, refValue 0x7f010000⟩])])]⟩

def w2Arsc : ARSC := ⟨false, [(0x7f, w2Pkg)]⟩

theorem arsc_self_cycle_guard_c2_witness :
    getResourceValueF emptyRender w2Arsc 1 0x7f010000 = .done none :=
  arsc_self_cycle_guard_c2 emptyRender w2Arsc 0 0x7f010000 w2Pkg
    ⟨8, 0, 0, refValue 0x7f010000⟩ rfl rfl rfl rfl

def cplxEntry : ResTableMapEntry := ⟨16, 1, 0, 0, 0, []⟩

/-- A package whose only entry for `(type 1, entry 0)` is a Complex
entry — the resource id `0x7f010000` exists in the default config. -/
def cplxPkg : ResTablePackage :=
  ⟨0x7f, [(defaultConfig, [(1, [ResTableEntry.complex cplxEntry])])]⟩

def cplxArsc : ARSC := ⟨false, [(0x7f, cplxPkg)]⟩

/-- C6 (counterexample): the resource `0x7f010000` exists (as a Complex
entry, found by `get_entry`) in a config of the table, yet
`get_resource_value` returns `None` — existence in some config does not
imply a value. -/
theorem arsc_complex_entry_none_c6_cex :
    cplxPkg.getEntry defaultConfig 1 0 = some (.complex cplxEntry)
    ∧ (defaultConfig, [(1, [ResTableEntry.complex cplxEntry])]) ∈ cplxPkg.resources
    ∧ getResourceValueF emptyRender cplxArsc 5 0x7f010000 = .done none :=
  ⟨rfl, List.mem_cons_self _ _, rfl⟩

lemma alistFind_of_mem_nodup {κ α : Type} [DecidableEq κ] {l : List (κ × α)} {k : κ} {v : α}
    (hnd : (l.map Prod.fst).Nodup) (hm : (k, v) ∈ l) : alistFind k l = some v := by
  induction l with
  | nil => cases hm
  | cons hd rest ih =>
    obtain ⟨k0, v0⟩ := hd
    rw [List.map_cons, List.nodup_cons] at hnd
    cases hm with
    | head =>
      simp [alistFind]
    | tail _ hm' =>
      by_cases hk : k0 = k
      · exfalso
        apply hnd.1
        subst hk
        exact List.mem_map.mpr ⟨_, hm', rfl⟩
      · simp only [alistFind, if_neg hk]
        exact ih hnd.2 hm'

lemma getEntryFallback_isSome_of_mem {resources : List (ResTableConfig × TypeMap)}
    {cfg : ResTableConfig} {t e : Nat} {c : ResTableConfig} {tm : TypeMap}
    {entry : ResTableEntry}
    (hmem : (c, tm) ∈ resources) (hne : c ≠ cfg)
    (hfind : configFind tm t e = some entry) :
    (getEntryFallback resources cfg t e).isSome := by
  induction resources with
  | nil => cases hmem
  | cons hd rest ih =>
    obtain ⟨c0, tm0⟩ := hd
    simp only [getEntryFallback]
    by_cases h0 : c0 = cfg
    · rw [if_pos h0]
      cases hmem with
      | head => exact absurd h0 hne
      | tail _ hm' => exact ih hm'
    · rw [if_neg h0]
      cases hcf : configFind tm0 t e with
      | some x => rfl
      | none =>
        cases hmem with
        | head => rw [hfind] at hcf; exact Option.noConfusion hcf
        | tail _ hm' => exact ih hm'

/-- C6 (amended): for `R = (p, t, e)`: if no package with id `p` exists
the lookup returns `None`; otherwise the hardcoded default config is
tried first, and when it misses, the other configs are searched in map
order, so that an entry existing in any config is found by `get_entry`;
the resolved value is produced only for a Default entry — in particular
a non-Reference Default entry always renders to a value, while Complex
and Compact entries yield `None`. -/
theorem arsc_lookup_fallback_c6 (render : ResourceValue → String) (arsc : ARSC)
    (id fuel : Nat) (pkg : ResTablePackage) :
    (alistFind (splitResourceId id).1 arsc.packages = none →
        getResourceValueF render arsc (fuel + 1) id = .done none)
    ∧ (alistFind (splitResourceId id).1 arsc.packages = some pkg →
        (∀ entry,
            (alistFind defaultConfig pkg.resources).bind
                (fun tm => configFind tm (splitResourceId id).2.1 (splitResourceId id).2.2)
              = some entry →
            pkg.getEntry defaultConfig (splitResourceId id).2.1 (splitResourceId id).2.2
              = some entry)
        ∧ ((pkg.resources.map Prod.fst).Nodup →
            ∀ cfg tm entry, (cfg, tm) ∈ pkg.resources →
              configFind tm (splitResourceId id).2.1 (splitResourceId id).2.2 = some entry →
              (pkg.getEntry defaultConfig (splitResourceId id).2.1
                  (splitResourceId id).2.2).isSome)
        ∧ (∀ d, pkg.getEntry defaultConfig (splitResourceId id).2.1 (splitResourceId id).2.2
              = some (.default d) →
            d.value.dataType ≠ .reference →
            getResourceValueF render arsc (fuel + 1) id
              = .done (some (render d.value)))) := by
  constructor
  · intro hp
    simp only [getResourceValueF, hp]
  · intro hp
    refine ⟨?_, ?_, ?_⟩
    · intro entry hprim
      unfold ResTablePackage.getEntry
      rw [hprim]
    · intro hnd cfg tm entry hmem hfind
      unfold ResTablePackage.getEntry
      cases hprim : (alistFind defaultConfig pkg.resources).bind
          (fun tm => configFind tm (splitResourceId id).2.1 (splitResourceId id).2.2) with
      | some x => rfl
      | none =>
        by_cases hcfg : cfg = defaultConfig
        · exfalso
          subst hcfg
          rw [alistFind_of_mem_nodup hnd hmem] at hprim
          rw [show (some tm).bind
              (fun tm => configFind tm (splitResourceId id).2.1 (splitResourceId id).2.2)
                = configFind tm (splitResourceId id).2.1 (splitResourceId id).2.2 from rfl] at hprim
          rw [hfind] at hprim
          exact Option.noConfusion hprim
        · exact getEntryFallback_isSome_of_mem hmem hcfg hfind
    · intro d he hnr
      simp only [getResourceValueF, hp, he, hnr]

def w6Pkg : ResTablePackage :=
  ⟨0x7f, [(5, [(1, [ResTableEntry.default ⟨8, 0, 0, ⟨8, 0, .dec, 7⟩⟩])])]⟩

def w6Arsc : ARSC := ⟨false, [(0x7f, w6Pkg)]⟩

theorem arsc_lookup_fallback_c6_witness :
    (w6Pkg.getEntry defaultConfig 1 0).isSome = true
    ∧ getResourceValueF emptyRender w6Arsc 1 0x7f010000 = .done (some "") := by
  have h := (arsc_lookup_fallback_c6 emptyRender w6Arsc 0x7f010000 0 w6Pkg).2 rfl
  exact ⟨h.2.1 (by decide) 5 [(1, [ResTableEntry.default ⟨8, 0, 0, ⟨8, 0, .dec, 7⟩⟩])]
      (ResTableEntry.default ⟨8, 0, 0, ⟨8, 0, .dec, 7⟩⟩) (List.mem_cons_self _ _) rfl,
    h.2.2 ⟨8, 0, 0, ⟨8, 0, .dec, 7⟩⟩ rfl (by decide)⟩
